import Mathlib

/-!
Shallow embedding of the resource-path core of this repository:

* the `ButlerURI` value type and its path algebra
  (src/python/lsst/butlerUri/_butlerUri.py);
* the HTTP read resource handle
  (src/python/lsst/resources/_resourceHandles/_httpResourceHandle.py);
* the webDAV transfer and redirect logic (src/python/lsst/resources/http.py).

Strings are modelled as lists of bytes (`List Nat`).  Python's
`urllib.parse.quote` percent-encodes the UTF-8 bytes of a string and
`unquote` decodes `%XX` escapes back to bytes before UTF-8 decoding, so the
byte-level functions below compose with the (bijective) UTF-8 codec to give
exactly the Python behaviour; ASCII inputs are literally identical.
Frequently used byte values: 37 is the percent sign, 45 the hyphen, 46 the
dot, 47 the path separator, 58 the colon.
-/

/-- Bytes of a string literal (ASCII use only in this development). -/
def strBytes (s : String) : List Nat := s.data.map Char.toNat

namespace urllib

/-- Bytes that `urllib.parse.quote` leaves unencoded with the default
`safe="/"`: ASCII letters, digits, the characters `_.-~` and the path
separator `/`. -/
def alwaysSafe (b : Nat) : Bool :=
  decide ((65 ≤ b ∧ b ≤ 90) ∨ (97 ≤ b ∧ b ≤ 122) ∨ (48 ≤ b ∧ b ≤ 57) ∨
    b = 95 ∨ b = 46 ∨ b = 45 ∨ b = 126 ∨ b = 47)

/-- Upper-case hexadecimal digit for a nibble, as emitted by `quote`. -/
def hexUpper (n : Nat) : Nat := if n < 10 then 48 + n else 55 + n

/-- Value of one hexadecimal digit byte (either case), as accepted by
`unquote`. -/
def hexVal (b : Nat) : Option Nat :=
  if 48 ≤ b ∧ b ≤ 57 then some (b - 48)
  else if 65 ≤ b ∧ b ≤ 70 then some (b - 55)
  else if 97 ≤ b ∧ b ≤ 102 then some (b - 87)
  else none

/-- Encoding of a single byte by `urllib.parse.quote`. -/
def quoteByte (b : Nat) : List Nat :=
  if alwaysSafe b then [b] else [37, hexUpper (b / 16), hexUpper (b % 16)]

/-- Byte-level model of `urllib.parse.quote` with the default `safe="/"`. -/
def quote (s : List Nat) : List Nat := (s.map quoteByte).flatten

/-- Byte-level model of `urllib.parse.unquote`: decode `%XX` escapes and
leave ill-formed escapes untouched (mirrors `unquote_to_bytes`, which keeps
a `%` not followed by two hex digits verbatim). -/
def unquote : List Nat → List Nat
  | [] => []
  | 37 :: h1 :: h2 :: rest2 =>
    match hexVal h1, hexVal h2 with
    | some v1, some v2 => (16 * v1 + v2) :: unquote rest2
    | _, _ => 37 :: unquote (h1 :: h2 :: rest2)
  | c :: rest => c :: unquote rest

theorem hexVal_hexUpper_lt : ∀ n < 16, hexVal (hexUpper n) = some n := by decide

theorem alwaysSafe_ne_37 {b : Nat} (h : alwaysSafe b = true) : b ≠ 37 := by
  intro hb
  subst hb
  exact absurd h (by decide)

theorem unquote_cons_of_ne {c : Nat} (t : List Nat) (h : c ≠ 37) :
    unquote (c :: t) = c :: unquote t := by
  match t with
  | [] => simp [unquote, h]
  | [a] => simp [unquote, h]
  | a :: b :: t2 => simp [unquote, h]

theorem unquote_pct {h1 h2 v1 v2 : Nat} (t : List Nat)
    (e1 : hexVal h1 = some v1) (e2 : hexVal h2 = some v2) :
    unquote (37 :: h1 :: h2 :: t) = (16 * v1 + v2) :: unquote t := by
  simp [unquote, e1, e2]

/-- Round-trip for the byte-level codec: decoding inverts encoding on every
byte string. -/
theorem unquote_quote (s : List Nat) (h : ∀ b ∈ s, b < 256) :
    unquote (quote s) = s := by
  induction s with
  | nil => simp [quote, unquote]
  | cons b t ih =>
    have hb : b < 256 := h b (List.mem_cons_self _ _)
    have ht : ∀ x ∈ t, x < 256 := fun x hx => h x (List.mem_cons_of_mem _ hx)
    have hq : quote (b :: t) = quoteByte b ++ quote t := by
      simp [quote]
    rw [hq]
    by_cases hs : alwaysSafe b
    · rw [show quoteByte b = [b] from by simp [quoteByte, hs]]
      rw [List.singleton_append, unquote_cons_of_ne _ (alwaysSafe_ne_37 hs), ih ht]
    · rw [show quoteByte b = [37, hexUpper (b / 16), hexUpper (b % 16)] from by
        simp [quoteByte, hs]]
      have hdiv : b / 16 < 16 := by omega
      have hmod : b % 16 < 16 := by omega
      rw [List.cons_append, List.cons_append, List.cons_append, List.nil_append,
        unquote_pct _ (hexVal_hexUpper_lt _ hdiv) (hexVal_hexUpper_lt _ hmod), ih ht]
      congr 1
      omega

/-- Reserved URI characters of RFC 3986 (gen-delims and sub-delims), as byte
values. -/
def isReservedURIChar (b : Nat) : Bool :=
  decide (b = 58 ∨ b = 47 ∨ b = 63 ∨ b = 35 ∨ b = 91 ∨ b = 93 ∨ b = 64 ∨
    b = 33 ∨ b = 36 ∨ b = 38 ∨ b = 39 ∨ b = 40 ∨ b = 41 ∨ b = 42 ∨
    b = 43 ∨ b = 44 ∨ b = 59 ∨ b = 61)

/-- C7: for every path string `p` free of reserved URI characters,
`unquote (quote p) = p`, where `quote` is the percent-quoting applied to
scheme-less input at `ButlerURI` construction and `unquote` is the decoding
used by `unquoted_path`. -/
theorem quote_unquote_roundtrip (p : List Nat) (hbytes : ∀ b ∈ p, b < 256)
    (_hfree : ∀ b ∈ p, isReservedURIChar b = false) :
    unquote (quote p) = p :=
  unquote_quote p hbytes

theorem quote_unquote_roundtrip_witness :
    (∀ b ∈ [97, 98, 99, 46, 116, 120, 116], b < 256) ∧
      (∀ b ∈ [97, 98, 99, 46, 116, 120, 116], isReservedURIChar b = false) ∧
      unquote (quote [97, 98, 99, 46, 116, 120, 116]) =
        [97, 98, 99, 46, 116, 120, 116] :=
  ⟨by decide, by decide,
    quote_unquote_roundtrip _ (by decide) (by decide)⟩

end urllib

namespace posixpath

/-- Trailing-separator test (`path.endswith(posixpath.sep)`). -/
def endsWithSep (p : List Nat) : Bool := p.getLast? == some 47

/-- Model of `posixpath.isabs`. -/
def isabs (p : List Nat) : Bool := p.head? == some 47

/-- Strip trailing separators (`head.rstrip("/")`). -/
def rstripSep (p : List Nat) : List Nat :=
  (p.reverse.dropWhile (fun c => c == 47)).reverse

/-- Model of `posixpath.split`: cut after the last separator, then strip
trailing separators from the head unless it consists only of separators. -/
def split (p : List Nat) : List Nat × List Nat :=
  let i := p.length - (p.reverse.takeWhile (fun c => c != 47)).length
  let head := p.take i
  let tail := p.drop i
  if head ≠ [] ∧ ¬(head.all (fun c => c == 47)) then (rstripSep head, tail)
  else (head, tail)

/-- Model of `posixpath.join` with one extra component. -/
def join (a b : List Nat) : List Nat :=
  if b.head? == some 47 then b
  else if a = [] ∨ endsWithSep a = true then a ++ b
  else a ++ [47] ++ b

/-- Number of leading separators kept by `posixpath.normpath` (and used by
`pathlib` to compute the root): two for an exactly-double leading slash,
otherwise one when the path is absolute. -/
def initialSlashes (p : List Nat) : Nat :=
  if p.take 1 = [47] then
    if p.take 2 = [47, 47] ∧ p.take 3 ≠ [47, 47, 47] then 2 else 1
  else 0

/-- Model of `str.split("/")`. -/
def splitOnSep : List Nat → List (List Nat)
  | [] => [[]]
  | c :: rest =>
    match splitOnSep rest with
    | [] => [[]]
    | s :: ss => if c = 47 then [] :: s :: ss else (c :: s) :: ss

/-- One step of `posixpath.normpath`'s component loop. -/
def normStep (isl : Nat) (acc : List (List Nat)) (comp : List Nat) :
    List (List Nat) :=
  if comp = [] ∨ comp = [46] then acc
  else if comp ≠ [46, 46] ∨ (isl = 0 ∧ acc = []) ∨ acc.getLast? = some [46, 46] then
    acc ++ [comp]
  else if acc ≠ [] then acc.dropLast
  else acc

/-- Model of `posixpath.normpath`. -/
def normpath (p : List Nat) : List Nat :=
  if p = [] then [46]
  else
    let isl := initialSlashes p
    let comps := (splitOnSep p).foldl (normStep isl) []
    let path := List.replicate isl 47 ++ List.intercalate [47] comps
    if path = [] then [46] else path

end posixpath

/-- Parsed form of a `PurePosixPath`: the root (`""`, `"/"` or `"//"`) and
the path components, with empty and `"."` components dropped, as in
`pathlib`'s POSIX flavour. -/
structure PurePosixPath where
  root : List Nat
  segs : List (List Nat)
deriving DecidableEq

/-- Parsing a byte string into a `PurePosixPath`. -/
def parsePurePosix (p : List Nat) : PurePosixPath :=
  { root := List.replicate (posixpath.initialSlashes p) 47,
    segs := (posixpath.splitOnSep p).filter (fun c => decide (c ≠ [] ∧ c ≠ [46])) }

/-- Printed form (`str`) of a `PurePosixPath`. -/
def PurePosixPath.str (p : PurePosixPath) : List Nat :=
  if p.root = [] ∧ p.segs = [] then [46]
  else p.root ++ List.intercalate [47] p.segs

/-- Model of `PurePosixPath.parent`: drop the last component, the root (or an
empty relative path) being its own parent. -/
def PurePosixPath.parent (p : PurePosixPath) : PurePosixPath :=
  if p.segs = [] then p else { root := p.root, segs := p.segs.dropLast }

/-- The `abs_parts` list built inside `PurePath.relative_to`: the components,
with the (empty) drive and the root prepended when the path is anchored. -/
def PurePosixPath.absParts (p : PurePosixPath) : List (List Nat) :=
  if p.root ≠ [] then [] :: p.root :: p.segs else p.segs

/-- Model of `PurePath.relative_to` (the `ValueError` branch becomes
`none`). -/
def PurePosixPath.relativeTo (p q : PurePosixPath) : Option PurePosixPath :=
  let ap := p.absParts
  let tap := q.absParts
  if tap.length = 0 then
    if p.root ≠ [] then none else some ⟨[], ap⟩
  else if ap.take tap.length = tap then
    some ⟨if tap.length = 1 then p.root else [], ap.drop tap.length⟩
  else none

/-- Model of `ButlerURI` for a generic quoted scheme (`s3`, `http`, ...):
the parsed components plus the `dirLike` flag.  The `params`, `query` and
`fragment` components and the `isTemporary` flag play no role in the
operations verified here and are omitted; `quotePaths` is `True` for every
scheme modelled (all non-schemeless URIs). -/
structure ButlerURI where
  scheme : List Nat
  netloc : List Nat
  path : List Nat
  dirLike : Bool
deriving DecidableEq

namespace ButlerURI

/-- Model of `ButlerURI._fixupPathUri` followed by the attribute assignment
in `__new__`, for construction from parsed components (construction from a
string parses the string and then runs the same fix-up). -/
def fromParsed (scheme netloc path : List Nat) (forceDirectory : Bool) :
    ButlerURI :=
  let endsOnSep := posixpath.endsWithSep path
  if forceDirectory || endsOnSep then
    { scheme := scheme, netloc := netloc,
      path := if endsOnSep then path else path ++ [47], dirLike := true }
  else
    { scheme := scheme, netloc := netloc, path := path, dirLike := false }

/-- Model of `geturl` (`urllib.parse.urlunparse`) for a URI with a network
location and empty params/query/fragment. -/
def geturl (u : ButlerURI) : List Nat :=
  u.scheme ++ [58] ++ [47, 47] ++ u.netloc ++ u.path

/-- Model of `ButlerURI.split`. -/
def splitURI (u : ButlerURI) : ButlerURI × List Nat :=
  let st := posixpath.split u.path
  (fromParsed u.scheme u.netloc st.1 true, urllib.unquote st.2)

/-- Model of `ButlerURI.dirname`. -/
def dirname (u : ButlerURI) : ButlerURI := (splitURI u).1

/-- Model of `ButlerURI.parent`. -/
def parentURI (u : ButlerURI) : ButlerURI :=
  if u.dirLike = false then dirname u
  else
    let originalPath := parsePurePosix u.path
    let parentPath := originalPath.parent
    fromParsed u.scheme u.netloc parentPath.str true

/-- Model of `ButlerURI.replace` for a path replacement: the new instance is
re-constructed from the replaced parse result with default arguments. -/
def replacePath (u : ButlerURI) (path : List Nat) : ButlerURI :=
  fromParsed u.scheme u.netloc path false

/-- Model of `ButlerURI.updateFile`. -/
def updateFile (u : ButlerURI) (newfile : List Nat) : ButlerURI :=
  let newfileQ := urllib.quote newfile
  let dir := (posixpath.split u.path).1
  let newpath := posixpath.join dir newfileQ
  { u with path := newpath, dirLike := false }

/-- Model of `ButlerURI.join`. -/
def join (u : ButlerURI) (path : List Nat) : ButlerURI :=
  let new := dirname u
  let pathQ := urllib.quote path
  let newpath := posixpath.normpath (posixpath.join new.path pathQ)
  let newDirLike := if posixpath.endsWithSep pathQ = false then false else new.dirLike
  { new with path := newpath, dirLike := newDirLike }

/-- Model of `ButlerURI.relativeToPathRoot` (the `p.relative_to(p.root)` call
never raises, so the `getD` default is unreachable). -/
def relativeToPathRoot (u : ButlerURI) : List Nat :=
  let p := parsePurePosix u.path
  let rel := ((p.relativeTo (parsePurePosix p.root)).getD ⟨[], p.segs⟩).str
  let rel := if u.dirLike && !(posixpath.endsWithSep rel) then rel ++ [47] else rel
  urllib.unquote rel

/-- Model of `ButlerURI.is_root`. -/
def isRoot (u : ButlerURI) : Bool := relativeToPathRoot u == [46, 47]

/-- Model of `ButlerURI.relative_to`. -/
def relativeTo (u other : ButlerURI) : Option (List Nat) :=
  if u.scheme = other.scheme ∧ u.netloc = other.netloc then
    match (parsePurePosix (relativeToPathRoot u)).relativeTo
        (parsePurePosix (relativeToPathRoot other)) with
    | some sub => some (urllib.unquote sub.str)
    | none => none
  else none

end ButlerURI

/-- The spec's dir-likeness invariant: `dirLike` is true exactly when the
stringified path ends with the scheme's separator. -/
def dirLikeInvariant (u : ButlerURI) : Prop :=
  u.dirLike = posixpath.endsWithSep u.path

theorem endsWithSep_append_sep (p : List Nat) :
    posixpath.endsWithSep (p ++ [47]) = true := by
  simp [posixpath.endsWithSep, List.getLast?_concat]

theorem endsWithSep_append_of_ne_nil (x : List Nat) {q : List Nat}
    (h : q ≠ []) : posixpath.endsWithSep (x ++ q) = posixpath.endsWithSep q := by
  simp [posixpath.endsWithSep, List.getLast?_append_of_ne_nil _ h]

theorem endsWithSep_eq_false_of_no47 {q : List Nat} (hq : q ≠ [])
    (h : ∀ c ∈ q, c ≠ 47) : posixpath.endsWithSep q = false := by
  have h1 : q.getLast? = some (q.getLast hq) :=
    List.getLast?_eq_getLast_of_ne_nil hq
  have h2 : q.getLast hq ≠ 47 := h _ (List.getLast_mem hq)
  simp [posixpath.endsWithSep, h1, h2]

theorem dirLikeInvariant_fromParsed (s n p : List Nat) (fd : Bool) :
    dirLikeInvariant (ButlerURI.fromParsed s n p fd) := by
  cases fd <;> by_cases he : posixpath.endsWithSep p = true <;>
    simp [dirLikeInvariant, ButlerURI.fromParsed, he, endsWithSep_append_sep]

theorem quote_ne_nil {f : List Nat} (h : f ≠ []) : urllib.quote f ≠ [] := by
  rcases f with _ | ⟨b, t⟩
  · exact absurd rfl h
  · have hqb : urllib.quoteByte b ≠ [] := by
      unfold urllib.quoteByte
      split <;> simp
    simp only [urllib.quote, List.map_cons, List.flatten_cons]
    intro hc
    exact hqb (List.append_eq_nil.mp hc).1

theorem mem_quoteByte_ne_47 {b c : Nat} (hb : b ≠ 47)
    (hc : c ∈ urllib.quoteByte b) : c ≠ 47 := by
  unfold urllib.quoteByte at hc
  split at hc
  · simp at hc
    exact hc ▸ hb
  · have h48 : ∀ n : Nat, urllib.hexUpper n ≠ 47 := by
      intro n
      unfold urllib.hexUpper
      split <;> omega
    simp at hc
    rcases hc with h | h | h
    · omega
    · exact h ▸ h48 _
    · exact h ▸ h48 _

theorem mem_quote_ne_47 {f : List Nat} (h : ∀ b ∈ f, b ≠ 47) :
    ∀ c ∈ urllib.quote f, c ≠ 47 := by
  intro c hc
  simp only [urllib.quote, List.mem_flatten, List.mem_map] at hc
  obtain ⟨l, ⟨b, hb, hl⟩, hcl⟩ := hc
  exact mem_quoteByte_ne_47 (h b hb) (hl ▸ hcl)

theorem dirLikeInvariant_updateFile (u : ButlerURI) (f : List Nat)
    (hne : f ≠ []) (h47 : ∀ b ∈ f, b ≠ 47) :
    dirLikeInvariant (ButlerURI.updateFile u f) := by
  have hq : urllib.quote f ≠ [] := quote_ne_nil hne
  have hq47 : ∀ c ∈ urllib.quote f, c ≠ 47 := mem_quote_ne_47 h47
  have hhead : (urllib.quote f).head? ≠ some 47 := by
    rcases hql : urllib.quote f with _ | ⟨c, t⟩
    · exact absurd hql hq
    · have : c ≠ 47 := hq47 c (hql ▸ List.mem_cons_self _ _)
      simp [this]
  have hjoin : ∀ dir : List Nat,
      posixpath.endsWithSep (posixpath.join dir (urllib.quote f)) = false := by
    intro dir
    unfold posixpath.join
    have hbeq : ((urllib.quote f).head? == some 47) = false := by
      cases hh : (urllib.quote f).head? with
      | none => rfl
      | some c =>
        have : c ≠ 47 := by
          intro hc
          exact hhead (by rw [hh, hc])
        simp [this]
    rw [hbeq]
    simp only [Bool.false_eq_true, if_false]
    have hfalse : posixpath.endsWithSep (urllib.quote f) = false :=
      endsWithSep_eq_false_of_no47 hq hq47
    split
    · rw [endsWithSep_append_of_ne_nil _ hq]
      exact hfalse
    · rw [List.append_assoc,
        @endsWithSep_append_of_ne_nil dir ([47] ++ urllib.quote f) (by simp),
        endsWithSep_append_of_ne_nil [47] hq]
      exact hfalse
  show (ButlerURI.updateFile u f).dirLike =
    posixpath.endsWithSep (ButlerURI.updateFile u f).path
  simp [ButlerURI.updateFile, hjoin]

/-- C1 counterexample: `join` with a separator-terminated component runs the
result through `normpath`, which strips the trailing separator while the
`dirLike` flag inherited from `dirname` stays true.  For
`ButlerURI("s3://bucket/a/b").join("c/")` the result has `dirLike = true`
and path `/a/c`, which does not end with the separator, refuting the
invariant as stated. -/
theorem dirLike_invariant_join_cex :
    (ButlerURI.join
        (ButlerURI.fromParsed (strBytes "s3") (strBytes "bucket")
          (strBytes "/a/b") false) (strBytes "c/")).dirLike = true ∧
      posixpath.endsWithSep
        (ButlerURI.join
          (ButlerURI.fromParsed (strBytes "s3") (strBytes "bucket")
            (strBytes "/a/b") false) (strBytes "c/")).path = false := by
  exact ⟨by decide, by decide⟩

/-- C1 (amended): the dir-likeness invariant — `dirLike` holds exactly when
the stringified path ends with the scheme's separator — is maintained by
construction from parsed components (and hence from a string, which is
parsed and then run through the same fix-up), by `split`, by `parent`, by
`replace`, and by `updateFile` for a non-empty separator-free file name.  It
is not maintained by `join`: a separator-terminated component keeps
`dirLike = true` while `normpath` strips the trailing separator (see the
counterexample), and a `..` component can collapse the path to the bare
root `/` while `dirLike` is set to false. -/
theorem dirLike_invariant_amended :
    (∀ s n p : List Nat, ∀ fd : Bool,
        dirLikeInvariant (ButlerURI.fromParsed s n p fd)) ∧
      (∀ u : ButlerURI, dirLikeInvariant (ButlerURI.splitURI u).1) ∧
      (∀ u : ButlerURI, dirLikeInvariant (ButlerURI.parentURI u)) ∧
      (∀ u : ButlerURI, ∀ p : List Nat,
        dirLikeInvariant (ButlerURI.replacePath u p)) ∧
      (∀ u : ButlerURI, ∀ f : List Nat, f ≠ [] → (∀ b ∈ f, b ≠ 47) →
        dirLikeInvariant (ButlerURI.updateFile u f)) := by
  refine ⟨dirLikeInvariant_fromParsed, ?_, ?_, ?_, dirLikeInvariant_updateFile⟩
  · intro u
    exact dirLikeInvariant_fromParsed _ _ _ _
  · intro u
    unfold ButlerURI.parentURI
    split
    · exact dirLikeInvariant_fromParsed _ _ _ _
    · exact dirLikeInvariant_fromParsed _ _ _ _
  · intro u p
    exact dirLikeInvariant_fromParsed _ _ _ _

theorem dirLike_invariant_amended_witness :
    dirLikeInvariant
      (ButlerURI.updateFile
        (ButlerURI.fromParsed (strBytes "s3") (strBytes "b")
          (strBytes "/a/b") false) (strBytes "x.txt")) :=
  dirLike_invariant_amended.2.2.2.2 _ _ (by decide) (by decide)

theorem split_sep_root : posixpath.split [47] = ([47], []) := by decide

theorem parse_sep_root : parsePurePosix [47] = ⟨[47], []⟩ := by decide

/-- C9 counterexample: `is_root` compares the unquoted root-relative path
with `"./"`, which also holds for the non-canonical path `/./`; there
`parent()` returns the canonical root `s3://b/`, which differs from
`s3://b/./` under `__eq__` (string equality of `geturl`).  So `parent()` is
not the identity on every URI reported as a root. -/
theorem parent_root_cex :
    ButlerURI.isRoot
        (ButlerURI.fromParsed (strBytes "s3") (strBytes "b")
          (strBytes "/./") false) = true ∧
      (ButlerURI.geturl
          (ButlerURI.parentURI
            (ButlerURI.fromParsed (strBytes "s3") (strBytes "b")
              (strBytes "/./") false)) ==
        ButlerURI.geturl
          (ButlerURI.fromParsed (strBytes "s3") (strBytes "b")
            (strBytes "/./") false)) = false := by
  exact ⟨by decide, by decide⟩

/-- C9 (amended): for every file-like (not dir-like) URI, `parent()` is
identical to `dirname()`; and `parent()` is the identity (under `__eq__`,
i.e. `geturl` equality) on every URI whose path is exactly the separator
`/` — the canonical root of its network location.  The `is_root` predicate
can additionally hold for non-canonical paths such as `/./`, for which
`parent()` returns the canonical root instead of the URI itself (see the
counterexample). -/
theorem parent_amended :
    (∀ u : ButlerURI, u.dirLike = false →
        ButlerURI.parentURI u = ButlerURI.dirname u) ∧
      (∀ u : ButlerURI, u.path = [47] →
        ButlerURI.geturl (ButlerURI.parentURI u) = ButlerURI.geturl u) := by
  constructor
  · intro u h
    unfold ButlerURI.parentURI
    simp [h]
  · intro u h
    rcases u with ⟨s, n, p, d⟩
    simp only at h
    subst h
    cases d
    · simp [ButlerURI.parentURI, ButlerURI.dirname, ButlerURI.splitURI,
        split_sep_root, ButlerURI.fromParsed, posixpath.endsWithSep,
        ButlerURI.geturl]
    · simp [ButlerURI.parentURI, parse_sep_root, PurePosixPath.parent,
        PurePosixPath.str, ButlerURI.fromParsed, posixpath.endsWithSep,
        ButlerURI.geturl]
      decide

theorem parent_amended_witness :
    ButlerURI.parentURI
        (ButlerURI.fromParsed (strBytes "s3") (strBytes "b")
          (strBytes "/a/b.txt") false) =
      ButlerURI.dirname
        (ButlerURI.fromParsed (strBytes "s3") (strBytes "b")
          (strBytes "/a/b.txt") false) ∧
      ButlerURI.geturl
          (ButlerURI.parentURI
            (ButlerURI.fromParsed (strBytes "s3") (strBytes "b")
              (strBytes "/") true)) =
        ButlerURI.geturl
          (ButlerURI.fromParsed (strBytes "s3") (strBytes "b")
            (strBytes "/") true) :=
  ⟨parent_amended.1 _ (by decide), parent_amended.2 _ (by decide)⟩

/-- Well-formed `pathlib` roots: empty, `/` or `//`. -/
def rootWF (r : List Nat) : Prop := r = [] ∨ r = [47] ∨ r = [47, 47]

/-- Well-formed `pathlib` components: non-empty, not `.`, separator-free. -/
def segWF (s : List Nat) : Prop := s ≠ [] ∧ s ≠ [46] ∧ 47 ∉ s

theorem splitOnSep_ne_nil (p : List Nat) : posixpath.splitOnSep p ≠ [] := by
  induction p with
  | nil => simp [posixpath.splitOnSep]
  | cons c rest ih =>
    simp only [posixpath.splitOnSep]
    obtain ⟨a, as, ha⟩ := List.exists_cons_of_ne_nil ih
    rw [ha]
    by_cases hc : c = 47 <;> simp [hc]

theorem mem_splitOnSep_no47 (p : List Nat) :
    ∀ s ∈ posixpath.splitOnSep p, 47 ∉ s := by
  induction p with
  | nil =>
    intro s hs
    simp [posixpath.splitOnSep] at hs
    simp [hs]
  | cons c rest ih =>
    intro s hs
    simp only [posixpath.splitOnSep] at hs
    obtain ⟨a, as, ha⟩ := List.exists_cons_of_ne_nil (splitOnSep_ne_nil rest)
    rw [ha] at hs
    by_cases hc : c = 47
    · simp [hc] at hs
      rcases hs with hs | hs | hs
      · simp [hs]
      · exact ih s (by rw [ha]; exact hs ▸ List.mem_cons_self _ _)
      · exact ih s (by rw [ha]; exact List.mem_cons_of_mem _ hs)
    · simp [hc] at hs
      rcases hs with hs | hs
      · subst hs
        intro hmem
        rcases List.mem_cons.mp hmem with h47 | h47
        · exact hc h47.symm
        · exact ih a (by rw [ha]; exact List.mem_cons_self _ _) h47
      · exact ih s (by rw [ha]; exact List.mem_cons_of_mem _ hs)

theorem parse_root_wf (p : List Nat) : rootWF (parsePurePosix p).root := by
  have h : posixpath.initialSlashes p = 0 ∨ posixpath.initialSlashes p = 1 ∨
      posixpath.initialSlashes p = 2 := by
    unfold posixpath.initialSlashes
    split
    · split
      · right; right; rfl
      · right; left; rfl
    · left; rfl
  unfold parsePurePosix
  rcases h with h | h | h <;> rw [h] <;> simp [rootWF]

theorem parse_segs_wf (p : List Nat) :
    ∀ s ∈ (parsePurePosix p).segs, segWF s := by
  intro s hs
  unfold parsePurePosix at hs
  simp only [List.mem_filter, decide_eq_true_eq] at hs
  exact ⟨hs.2.1, hs.2.2, mem_splitOnSep_no47 p s hs.1⟩

theorem intercalate_singleton_sep (s : List Nat) :
    List.intercalate [47] [s] = s := by
  simp [List.intercalate]

theorem intercalate_cons2_sep (s t : List Nat) (l : List (List Nat)) :
    List.intercalate [47] (s :: t :: l) =
      s ++ [47] ++ List.intercalate [47] (t :: l) := by
  simp [List.intercalate, List.intersperse]

theorem intercalate_cons_exists (s : List Nat) (l : List (List Nat)) :
    ∃ t, List.intercalate [47] (s :: l) = s ++ t := by
  cases l with
  | nil => exact ⟨[], by rw [intercalate_singleton_sep, List.append_nil]⟩
  | cons t l' =>
    exact ⟨[47] ++ List.intercalate [47] (t :: l'),
      by rw [intercalate_cons2_sep, List.append_assoc]⟩

theorem endsWithSep_intercalate_false {l : List (List Nat)} (h : l ≠ [])
    (hwf : ∀ s ∈ l, segWF s) :
    posixpath.endsWithSep (List.intercalate [47] l) = false := by
  induction l with
  | nil => exact absurd rfl h
  | cons s l' ih =>
    have hs := hwf s (List.mem_cons_self _ _)
    cases l' with
    | nil =>
      rw [intercalate_singleton_sep]
      exact endsWithSep_eq_false_of_no47 hs.1
        (fun c hc hc47 => hs.2.2 (hc47 ▸ hc))
    | cons t l'' =>
      have ht := hwf t (List.mem_cons_of_mem _ (List.mem_cons_self _ _))
      obtain ⟨r, hr⟩ := intercalate_cons_exists t l''
      have hne : List.intercalate [47] (t :: l'') ≠ [] := by
        rw [hr]
        intro hx
        exact ht.1 (List.append_eq_nil.mp hx).1
      rw [intercalate_cons2_sep, List.append_assoc,
        @endsWithSep_append_of_ne_nil s ([47] ++ List.intercalate [47] (t :: l'')) (by simp),
        endsWithSep_append_of_ne_nil [47] hne]
      exact ih (by simp) (fun x hx => hwf x (List.mem_cons_of_mem _ hx))

theorem splitOnSep_cons_sep (p : List Nat) :
    posixpath.splitOnSep (47 :: p) = [] :: posixpath.splitOnSep p := by
  simp only [posixpath.splitOnSep]
  obtain ⟨a, as, ha⟩ := List.exists_cons_of_ne_nil (splitOnSep_ne_nil p)
  rw [ha]
  simp

theorem splitOnSep_append_sep {s : List Nat} (h : 47 ∉ s) (rest : List Nat) :
    posixpath.splitOnSep (s ++ 47 :: rest) = s :: posixpath.splitOnSep rest := by
  induction s with
  | nil => exact splitOnSep_cons_sep rest
  | cons c s' ih =>
    have hc : c ≠ 47 := fun hx => h (hx ▸ List.mem_cons_self _ _)
    have hs' : 47 ∉ s' := fun hx => h (List.mem_cons_of_mem _ hx)
    rw [List.cons_append]
    simp only [posixpath.splitOnSep]
    rw [ih hs']
    simp [hc]

theorem splitOnSep_intercalate_sep {l : List (List Nat)} (h : l ≠ [])
    (hno : ∀ s ∈ l, 47 ∉ s) :
    posixpath.splitOnSep (List.intercalate [47] l ++ [47]) = l ++ [[]] := by
  induction l with
  | nil => exact absurd rfl h
  | cons s l' ih =>
    have hs := hno s (List.mem_cons_self _ _)
    cases l' with
    | nil =>
      rw [intercalate_singleton_sep]
      have : s ++ [47] = s ++ 47 :: [] := rfl
      rw [this, splitOnSep_append_sep hs]
      rfl
    | cons t l'' =>
      rw [intercalate_cons2_sep, List.append_assoc, List.append_assoc]
      have : [47] ++ (List.intercalate [47] (t :: l'') ++ [47]) =
          47 :: (List.intercalate [47] (t :: l'') ++ [47]) := rfl
      rw [this, splitOnSep_append_sep hs,
        ih (by simp) (fun x hx => hno x (List.mem_cons_of_mem _ hx))]
      rfl

theorem filter_wf_segs {l : List (List Nat)} (hl : ∀ s ∈ l, segWF s) :
    (l ++ [[]]).filter (fun c => decide (c ≠ [] ∧ c ≠ [46])) = l := by
  have h2 : List.filter (fun c => decide (c ≠ [] ∧ c ≠ [46]))
      ([[]] : List (List Nat)) = [] := by decide
  have h1 : l.filter (fun c => decide (c ≠ [] ∧ c ≠ [46])) = l := by
    apply List.filter_eq_self.mpr
    intro a ha
    simp [(hl a ha).1, (hl a ha).2.1]
  rw [List.filter_append, h1, h2, List.append_nil]

theorem initialSlashes_cons_ne47 {c : Nat} (hc : c ≠ 47) (Y : List Nat) :
    posixpath.initialSlashes (c :: Y) = 0 := by
  simp [posixpath.initialSlashes, hc]

theorem initialSlashes_sep_cons_ne47 {c : Nat} (hc : c ≠ 47) (Y : List Nat) :
    posixpath.initialSlashes (47 :: c :: Y) = 1 := by
  simp [posixpath.initialSlashes, hc]

theorem initialSlashes_sepsep_cons_ne47 {c : Nat} (hc : c ≠ 47) (Y : List Nat) :
    posixpath.initialSlashes (47 :: 47 :: c :: Y) = 2 := by
  simp [posixpath.initialSlashes, hc]

/-- Round-trip: parsing the printed form of a well-formed `PurePosixPath`
after the dir-like fix-up (a trailing separator is appended when missing)
recovers the original root and components. -/
theorem parse_str_dirfix {r : List Nat} {l : List (List Nat)} (hr : rootWF r)
    (hl : ∀ s ∈ l, segWF s) :
    parsePurePosix
        (if posixpath.endsWithSep (PurePosixPath.str ⟨r, l⟩) then
          PurePosixPath.str ⟨r, l⟩
        else PurePosixPath.str ⟨r, l⟩ ++ [47]) = ⟨r, l⟩ := by
  cases l with
  | nil => rcases hr with h | h | h <;> subst h <;> decide
  | cons s l' =>
    have hs := hl s (List.mem_cons_self _ _)
    obtain ⟨c, s'', rfl⟩ := List.exists_cons_of_ne_nil hs.1
    have hc : c ≠ 47 := fun hx => hs.2.2 (hx ▸ List.mem_cons_self _ _)
    obtain ⟨t, hI⟩ := intercalate_cons_exists (c :: s'') l'
    have hno : ∀ x ∈ (c :: s'') :: l', 47 ∉ x := fun x hx => (hl x hx).2.2
    have hne : List.intercalate [47] ((c :: s'') :: l') ≠ [] := by
      rw [hI]; simp
    have hstr : PurePosixPath.str ⟨r, (c :: s'') :: l'⟩ =
        r ++ List.intercalate [47] ((c :: s'') :: l') := by
      simp [PurePosixPath.str]
    have hends : posixpath.endsWithSep
        (PurePosixPath.str ⟨r, (c :: s'') :: l'⟩) = false := by
      rw [hstr, endsWithSep_append_of_ne_nil r hne]
      exact endsWithSep_intercalate_false (by simp) hl
    rw [hends]
    simp only [Bool.false_eq_true, if_false]
    rw [hstr, List.append_assoc]
    have hsplit := @splitOnSep_intercalate_sep ((c :: s'') :: l') (by simp) hno
    have hIcons : List.intercalate [47] ((c :: s'') :: l') ++ [47] =
        c :: (s'' ++ (t ++ [47])) := by
      rw [hI, List.append_assoc, List.cons_append]
    rcases hr with h | h | h <;> subst h
    · rw [List.nil_append]
      unfold parsePurePosix
      rw [hsplit, filter_wf_segs hl,
        show posixpath.initialSlashes
            (List.intercalate [47] ((c :: s'') :: l') ++ [47]) = 0 from by
          rw [hIcons]; exact initialSlashes_cons_ne47 hc _]
      rfl
    · rw [show [47] ++ (List.intercalate [47] ((c :: s'') :: l') ++ [47]) =
          47 :: (List.intercalate [47] ((c :: s'') :: l') ++ [47]) from rfl]
      unfold parsePurePosix
      rw [splitOnSep_cons_sep, hsplit,
        show posixpath.initialSlashes
            (47 :: (List.intercalate [47] ((c :: s'') :: l') ++ [47])) = 1 from by
          rw [hIcons]; exact initialSlashes_sep_cons_ne47 hc _]
      rw [List.filter_cons]
      simp [hs.2.1]
      exact fun a ha => ⟨(hl a (List.mem_cons_of_mem _ ha)).1,
        (hl a (List.mem_cons_of_mem _ ha)).2.1⟩
    · rw [show [47, 47] ++ (List.intercalate [47] ((c :: s'') :: l') ++ [47]) =
          47 :: 47 :: (List.intercalate [47] ((c :: s'') :: l') ++ [47]) from rfl]
      unfold parsePurePosix
      rw [splitOnSep_cons_sep, splitOnSep_cons_sep, hsplit,
        show posixpath.initialSlashes
            (47 :: 47 :: (List.intercalate [47] ((c :: s'') :: l') ++ [47])) = 2 from by
          rw [hIcons]; exact initialSlashes_sepsep_cons_ne47 hc _]
      rw [List.filter_cons, List.filter_cons]
      simp [hs.2.1]
      exact fun a ha => ⟨(hl a (List.mem_cons_of_mem _ ha)).1,
        (hl a (List.mem_cons_of_mem _ ha)).2.1⟩

theorem parent_root_eq (p : PurePosixPath) : p.parent.root = p.root := by
  unfold PurePosixPath.parent
  split <;> rfl

theorem parent_segs_eq (p : PurePosixPath) :
    p.parent.segs = p.segs.dropLast := by
  unfold PurePosixPath.parent
  split
  · rename_i h
    rw [h]
    rfl
  · rfl

theorem fromParsed_scheme (s n p : List Nat) (f : Bool) :
    (ButlerURI.fromParsed s n p f).scheme = s := by
  simp only [ButlerURI.fromParsed]
  split <;> rfl

theorem fromParsed_netloc (s n p : List Nat) (f : Bool) :
    (ButlerURI.fromParsed s n p f).netloc = n := by
  simp only [ButlerURI.fromParsed]
  split <;> rfl

theorem fromParsed_true_dirLike (s n p : List Nat) :
    (ButlerURI.fromParsed s n p true).dirLike = true := by
  simp [ButlerURI.fromParsed]

theorem fromParsed_true_path (s n p : List Nat) :
    (ButlerURI.fromParsed s n p true).path =
      if posixpath.endsWithSep p then p else p ++ [47] := by
  simp only [ButlerURI.fromParsed, Bool.true_or, if_true]

theorem parentURI_of_dirLike (u : ButlerURI) (h : u.dirLike = true) :
    ButlerURI.parentURI u =
      ButlerURI.fromParsed u.scheme u.netloc
        (PurePosixPath.parent (parsePurePosix u.path)).str true := by
  unfold ButlerURI.parentURI
  simp [h]

theorem parentURI_dirLike (u : ButlerURI) :
    (ButlerURI.parentURI u).dirLike = true := by
  unfold ButlerURI.parentURI ButlerURI.dirname ButlerURI.splitURI
  split <;> simp [fromParsed_true_dirLike]

theorem parentURI_scheme (u : ButlerURI) :
    (ButlerURI.parentURI u).scheme = u.scheme := by
  unfold ButlerURI.parentURI ButlerURI.dirname ButlerURI.splitURI
  split <;> simp [fromParsed_scheme]

theorem parentURI_netloc (u : ButlerURI) :
    (ButlerURI.parentURI u).netloc = u.netloc := by
  unfold ButlerURI.parentURI ButlerURI.dirname ButlerURI.splitURI
  split <;> simp [fromParsed_netloc]

theorem parse_parentURI_path (u : ButlerURI) (h : u.dirLike = true) :
    parsePurePosix (ButlerURI.parentURI u).path =
      PurePosixPath.parent (parsePurePosix u.path) := by
  rw [parentURI_of_dirLike u h, fromParsed_true_path]
  have hq_root : rootWF (PurePosixPath.parent (parsePurePosix u.path)).root := by
    rw [parent_root_eq]
    exact parse_root_wf _
  have hq_segs : ∀ s ∈ (PurePosixPath.parent (parsePurePosix u.path)).segs,
      segWF s := by
    rw [parent_segs_eq]
    intro s hs
    exact parse_segs_wf _ s ((List.dropLast_sublist _).subset hs)
  exact parse_str_dirfix hq_root hq_segs

theorem parent_fix_of_segs_nil (w : ButlerURI) (hd : w.dirLike = true)
    (hs : (parsePurePosix w.path).segs = []) :
    ButlerURI.geturl (ButlerURI.parentURI (ButlerURI.parentURI w)) =
      ButlerURI.geturl (ButlerURI.parentURI w) := by
  have h1 : (ButlerURI.parentURI w).dirLike = true := parentURI_dirLike w
  have hparse : parsePurePosix (ButlerURI.parentURI w).path =
      PurePosixPath.parent (parsePurePosix w.path) := parse_parentURI_path w hd
  have hparent_id : PurePosixPath.parent (parsePurePosix w.path) =
      parsePurePosix w.path := by
    unfold PurePosixPath.parent
    simp [hs]
  have e1 : ButlerURI.parentURI w =
      ButlerURI.fromParsed w.scheme w.netloc
        (PurePosixPath.parent (parsePurePosix w.path)).str true :=
    parentURI_of_dirLike w hd
  rw [parentURI_of_dirLike (ButlerURI.parentURI w) h1, parentURI_scheme,
    parentURI_netloc, hparse, hparent_id, ← e1]

/-- C10: the recursive ancestor creation in `HttpResourcePath.mkdir`
terminates: the recursion is guarded by `self.geturl() != self.parent().geturl()`
and each step replaces the URI by its parent, so after at most one step per
path component (plus one canonicalisation step) the guard fails — `parent()`
reaches a fixpoint of `geturl` — and `mkdir` cannot recurse forever.  The
`parent()` used is the dir-like branch of `ButlerURI.parent` (`mkdir`
requires a dir-like URI and `parent()` always returns one). -/
theorem mkdir_recursion_terminates (u : ButlerURI) (h : u.dirLike = true) :
    ButlerURI.geturl
        (ButlerURI.parentURI
          (ButlerURI.parentURI^[(parsePurePosix u.path).segs.length + 1] u)) =
      ButlerURI.geturl
        (ButlerURI.parentURI^[(parsePurePosix u.path).segs.length + 1] u) := by
  have hdir : ∀ k : Nat, (ButlerURI.parentURI^[k] u).dirLike = true := by
    intro k
    cases k with
    | zero => exact h
    | succ k =>
      rw [Function.iterate_succ_apply']
      exact parentURI_dirLike _
  have hlen : ∀ k : Nat,
      (parsePurePosix (ButlerURI.parentURI^[k] u).path).segs.length =
        (parsePurePosix u.path).segs.length - k := by
    intro k
    induction k with
    | zero => simp
    | succ k ih =>
      rw [Function.iterate_succ_apply', parse_parentURI_path _ (hdir k),
        parent_segs_eq, List.length_dropLast, ih]
      omega
  have hsegs_nil :
      (parsePurePosix
        (ButlerURI.parentURI^[(parsePurePosix u.path).segs.length] u).path).segs
        = [] := by
    apply List.length_eq_zero.mp
    rw [hlen]
    omega
  rw [Function.iterate_succ_apply']
  exact parent_fix_of_segs_nil _
    (hdir (parsePurePosix u.path).segs.length) hsegs_nil

theorem mkdir_recursion_terminates_witness :
    ButlerURI.geturl
        (ButlerURI.parentURI
          (ButlerURI.parentURI^[(parsePurePosix
            (ButlerURI.fromParsed (strBytes "https") (strBytes "example.org")
              (strBytes "/a/b/") false).path).segs.length + 1]
            (ButlerURI.fromParsed (strBytes "https") (strBytes "example.org")
              (strBytes "/a/b/") false))) =
      ButlerURI.geturl
        (ButlerURI.parentURI^[(parsePurePosix
          (ButlerURI.fromParsed (strBytes "https") (strBytes "example.org")
            (strBytes "/a/b/") false).path).segs.length + 1]
          (ButlerURI.fromParsed (strBytes "https") (strBytes "example.org")
            (strBytes "/a/b/") false)) :=
  mkdir_recursion_terminates _ (by decide)

theorem ppRelTo_of_prefix {p q : PurePosixPath} (hq : q.absParts ≠ [])
    (hpre : q.absParts <+: p.absParts) :
    p.relativeTo q = some ⟨if q.absParts.length = 1 then p.root else [],
      p.absParts.drop q.absParts.length⟩ := by
  simp only [PurePosixPath.relativeTo]
  rw [if_neg (by simp [hq]), if_pos (List.prefix_iff_eq_take.mp hpre).symm]

theorem ppRelTo_of_not_prefix {p q : PurePosixPath} (hq : q.absParts ≠ [])
    (hpre : ¬ q.absParts <+: p.absParts) : p.relativeTo q = none := by
  simp only [PurePosixPath.relativeTo]
  rw [if_neg (by simp [hq]),
    if_neg (fun hx => hpre (List.prefix_iff_eq_take.mpr hx.symm))]

theorem ppRelTo_of_nil {p q : PurePosixPath} (hq : q.absParts = []) :
    p.relativeTo q =
      if p.root ≠ [] then none else some ⟨[], p.absParts⟩ := by
  simp only [PurePosixPath.relativeTo]
  rw [if_pos (by simp [hq])]

theorem prefix_len1_root_nil {p q : PurePosixPath}
    (hq1 : q.absParts.length = 1) (hseg : ∀ s ∈ q.segs, s ≠ [])
    (hpre : q.absParts <+: p.absParts) : p.root = [] := by
  have hqroot : q.root = [] := by
    by_contra h
    have hx : q.absParts = [] :: q.root :: q.segs := by
      simp [PurePosixPath.absParts, h]
    rw [hx] at hq1
    simp at hq1
  have hqa : q.absParts = q.segs := by simp [PurePosixPath.absParts, hqroot]
  rw [hqa] at hq1 hpre
  obtain ⟨x, hx⟩ := List.length_eq_one.mp hq1
  by_contra hproot
  have hpa : p.absParts = [] :: p.root :: p.segs := by
    simp [PurePosixPath.absParts, hproot]
  rw [hpa, hx] at hpre
  have hxnil : x = [] := (List.cons_prefix_cons.mp hpre).1
  exact hseg x (hx ▸ List.mem_cons_self _ _) hxnil

/-- Components of a URI's unquoted root-relative path (the `abs_parts` list
that `relative_to` compares lexically). -/
def relParts (u : ButlerURI) : List (List Nat) :=
  (parsePurePosix (ButlerURI.relativeToPathRoot u)).absParts

/-- Root of a URI's unquoted root-relative path (non-empty only when
unquoting uncovered a leading separator). -/
def relRoot (u : ButlerURI) : List Nat :=
  (parsePurePosix (ButlerURI.relativeToPathRoot u)).root

/-- Spec-side descendant relation on raw URI paths: `p` lies strictly below
the directory denoted by `q`. -/
def pathIsDescendant (p q : List Nat) : Bool :=
  let qdir := if posixpath.endsWithSep q then q else q ++ [47]
  qdir.isPrefixOf p && (p != q)

/-- C8 counterexample: with equal scheme and netloc, `relative_to` compares
the *unquoted* root-relative paths, so a quoted separator (`%2F`) acts as a
real separator: `s3://b/a%2Fb` is reported relative to `s3://b/a` with
sub-path `b`, although the raw path `/a%2Fb` is not a descendant of `/a`.
The claim requires `None` here. -/
theorem relative_to_quoted_sep_cex :
    ButlerURI.relativeTo
        (ButlerURI.fromParsed (strBytes "s3") (strBytes "b")
          (strBytes "/a%2Fb") false)
        (ButlerURI.fromParsed (strBytes "s3") (strBytes "b")
          (strBytes "/a") false) = some (strBytes "b") ∧
      pathIsDescendant
        (ButlerURI.fromParsed (strBytes "s3") (strBytes "b")
          (strBytes "/a%2Fb") false).path
        (ButlerURI.fromParsed (strBytes "s3") (strBytes "b")
          (strBytes "/a") false).path = false := by
  exact ⟨by decide, by decide⟩

/-- C8 (amended): `relative_to` returns `None` whenever schemes or netlocs
differ.  With equal scheme and netloc it compares the *unquoted*
root-relative paths purely lexically (no `..` resolution): when `b`'s
component list is non-empty, it returns the further-unquoted remainder
exactly when `b`'s components are a prefix of `a`'s, and `None` otherwise;
when `b`'s component list is empty, it returns `None` if `a`'s unquoted
path is rooted and the remainder otherwise.  Because the comparison happens
after unquoting, quoted separators act as separators (see the
counterexample), and `..` components are compared literally. -/
theorem relative_to_amended :
    (∀ a b : ButlerURI, a.scheme ≠ b.scheme ∨ a.netloc ≠ b.netloc →
        ButlerURI.relativeTo a b = none) ∧
      (∀ a b : ButlerURI, a.scheme = b.scheme → a.netloc = b.netloc →
        (relParts b ≠ [] → relParts b <+: relParts a →
          ButlerURI.relativeTo a b =
            some (urllib.unquote (PurePosixPath.str
              ⟨[], (relParts a).drop (relParts b).length⟩))) ∧
        (relParts b ≠ [] → ¬ relParts b <+: relParts a →
          ButlerURI.relativeTo a b = none) ∧
        (relParts b = [] →
          ButlerURI.relativeTo a b =
            (if relRoot a ≠ [] then none
             else some (urllib.unquote (PurePosixPath.str ⟨[], relParts a⟩))))) := by
  constructor
  · intro a b h
    unfold ButlerURI.relativeTo
    rw [if_neg (by tauto)]
  · intro a b hs hn
    refine ⟨?_, ?_, ?_⟩
    · intro hne hpre
      simp only [relParts] at hne hpre
      unfold ButlerURI.relativeTo
      rw [if_pos ⟨hs, hn⟩, ppRelTo_of_prefix hne hpre]
      simp only [relParts]
      by_cases h1 :
          (parsePurePosix (ButlerURI.relativeToPathRoot b)).absParts.length = 1
      · rw [if_pos h1,
          prefix_len1_root_nil h1
            (fun s hsx => (parse_segs_wf _ s hsx).1) hpre]
      · rw [if_neg h1]
    · intro hne hpre
      simp only [relParts] at hne hpre
      unfold ButlerURI.relativeTo
      rw [if_pos ⟨hs, hn⟩, ppRelTo_of_not_prefix hne hpre]
    · intro hnil
      simp only [relParts] at hnil
      unfold ButlerURI.relativeTo
      rw [if_pos ⟨hs, hn⟩, ppRelTo_of_nil hnil]
      simp only [relParts, relRoot]
      by_cases hr :
          (parsePurePosix (ButlerURI.relativeToPathRoot a)).root ≠ []
      · rw [if_pos hr, if_pos hr]
      · rw [if_neg hr, if_neg hr]

theorem relative_to_amended_witness :
    ButlerURI.relativeTo
        (ButlerURI.fromParsed (strBytes "s3") (strBytes "b")
          (strBytes "/x/y/z.txt") false)
        (ButlerURI.fromParsed (strBytes "s3") (strBytes "netloc2")
          (strBytes "/x/") true) = none ∧
      ButlerURI.relativeTo
        (ButlerURI.fromParsed (strBytes "s3") (strBytes "b")
          (strBytes "/x/y/z.txt") false)
        (ButlerURI.fromParsed (strBytes "s3") (strBytes "b")
          (strBytes "/x/") true) =
        some (urllib.unquote (PurePosixPath.str
          ⟨[], (relParts (ButlerURI.fromParsed (strBytes "s3") (strBytes "b")
            (strBytes "/x/y/z.txt") false)).drop
              (relParts (ButlerURI.fromParsed (strBytes "s3") (strBytes "b")
                (strBytes "/x/") true)).length⟩)) :=
  ⟨relative_to_amended.1 _ _ (Or.inr (by decide)),
    (relative_to_amended.2 _ _ (by decide) (by decide)).1
      (by decide) (by decide)⟩

/-- Python exceptions that `HttpReadResourceHandle` methods can raise. -/
inductive ReadErr where
  | fileNotFound (status : Nat)
  | valueError
  | unsupportedOp
deriving DecidableEq

/-- An HTTP response as seen by the read handle: status code, body bytes and
the optional `Content-Range` header value (a byte string). -/
structure RangedResponse where
  status : Nat
  content : List Nat
  contentRange : Option (List Nat)
deriving DecidableEq

/-- Mutable state of an `HttpReadResourceHandle`: `_current_position`,
`_eof`, and `_completeBuffer` modelled as the `io.BytesIO` contents together
with its own seek position. -/
structure HandleState where
  pos : Nat
  eof : Bool
  buffer : Option (List Nat × Nat)
deriving DecidableEq

/-- Model of `io.BytesIO.read`: all remaining bytes from the buffer position
for a negative size, otherwise at most `size` bytes. -/
def bytesIORead (buf : List Nat) (p : Nat) (size : Int) : List Nat :=
  if size < 0 then buf.drop p else (buf.drop p).take size.toNat

/-- Generic `str.split(sep)` on byte strings. -/
def splitOnByte (sep : Nat) : List Nat → List (List Nat)
  | [] => [[]]
  | c :: rest =>
    match splitOnByte sep rest with
    | [] => [[]]
    | s :: ss => if c = sep then [] :: s :: ss else (c :: s) :: ss

/-- Python `int()` on a decimal byte string; `none` models the `ValueError`
raised on non-numeric input (surrounding whitespace and signs, which never
occur in a well-formed `Content-Range`, are not modelled). -/
def parseDecimal (s : List Nat) : Option Nat :=
  if s ≠ [] ∧ s.all (fun c => 48 ≤ c && c ≤ 57) then
    some (s.foldl (fun acc c => 10 * acc + (c - 48)) 0)
  else none

namespace HttpReadResourceHandle

/-- The `Content-Range` interpretation step of `read` (splitting on space,
`/` and `-`, with strict two-way unpacking).  Returns whether the header
marks the end of the resource; `none` models an uncaught `ValueError`. -/
def interpretContentRange (cr : List Nat) : Option Bool :=
  match splitOnByte 32 cr with
  | [units, rangeString] =>
    if units = strBytes "bytes" then
      match splitOnByte 47 rangeString with
      | [range, total] =>
        if 45 ∈ range then
          match splitOnByte 45 range with
          | [_, endStr] =>
            match parseDecimal endStr with
            | some endPos =>
              if total ≠ [42] then
                match parseDecimal total with
                | some totalN =>
                  some (decide ((endPos : Int) ≥ (totalN : Int) - 1))
                | none => none
              else some false
            | none => none
          | _ => none
        else some false
      | _ => none
    else some false
  | _ => none

/-- Model of `HttpReadResourceHandle.read`.  The response `resp` is what the
session returns for the single GET this call issues (full or ranged); the
recursive call made by the range-fallback branch re-enters with the buffer
set and therefore reads from the buffer without touching the session. -/
def read (st : HandleState) (size : Int) (resp : RangedResponse) :
    Except ReadErr (List Nat × HandleState) :=
  if st.eof then .ok ([], st)
  else
    match _hb : st.buffer with
    | some (buf, bp) =>
      let result := bytesIORead buf bp size
      .ok (result,
        { st with pos := st.pos + result.length,
                  buffer := some (buf, bp + result.length) })
    | none =>
      if size = -1 ∧ st.pos = 0 then
        if resp.status ≠ 200 ∧ resp.status ≠ 206 then
          .error (.fileNotFound resp.status)
        else
          .ok (resp.content,
            { st with pos := resp.content.length,
                      buffer := some (resp.content, resp.content.length) })
      else
        if resp.status = 416 then .ok ([], { st with eof := true })
        else if resp.status ≠ 200 ∧ resp.status ≠ 206 then
          .error (.fileNotFound resp.status)
        else
          if (resp.content.length : Int) > size ∨ resp.status ≠ 206 then
            read { st with buffer := some (resp.content, 0) } size resp
          else
            match
              (match resp.contentRange with
               | some cr => interpretContentRange cr
               | none => some false) with
            | none => .error .valueError
            | some eofFromRange =>
              .ok (resp.content,
                { st with
                    pos := st.pos + resp.content.length,
                    eof := eofFromRange ||
                      decide ((resp.content.length : Int) < size) })
termination_by (if st.buffer = none then 1 else 0)
decreasing_by simp_all

/-- Model of `tell`. -/
def tell (st : HandleState) : Nat := st.pos

/-- Seek modes supported by the handle. -/
inductive Whence where
  | seekSet
  | seekCur
deriving DecidableEq

/-- Model of `HttpReadResourceHandle.seek` (the buffer, when present, is
re-seeked with `self._completeBuffer.seek(self._current_position, whence)`,
so `SEEK_CUR` advances the buffer by the new position). -/
def seek (st : HandleState) (offset : Int) (whence : Whence) :
    Except ReadErr (Nat × HandleState) :=
  if whence = .seekCur ∧ (st.pos : Int) + offset ≥ 0 then
    let newPos := ((st.pos : Int) + offset).toNat
    .ok (newPos,
      { pos := newPos, eof := false,
        buffer := st.buffer.map (fun bb => (bb.1, bb.2 + newPos)) })
  else if whence = .seekSet ∧ offset ≥ 0 then
    let newPos := offset.toNat
    .ok (newPos,
      { pos := newPos, eof := false,
        buffer := st.buffer.map (fun bb => (bb.1, newPos)) })
  else .error .unsupportedOp

end HttpReadResourceHandle

/-- C5: when the ranged GET is answered with status 416 (range not
satisfiable), `read` returns the empty byte string, marks the handle at
end-of-stream instead of raising, and leaves the reported read position
(`tell`) unchanged. -/
theorem read_416_eof (st : HandleState) (size : Int) (resp : RangedResponse)
    (heof : st.eof = false) (hbuf : st.buffer = none)
    (hranged : ¬(size = -1 ∧ st.pos = 0)) (hstatus : resp.status = 416) :
    HttpReadResourceHandle.read st size resp =
        .ok ([], { st with eof := true }) ∧
      HttpReadResourceHandle.tell { st with eof := true } =
        HttpReadResourceHandle.tell st := by
  constructor
  · rw [HttpReadResourceHandle.read]
    rw [heof]
    simp only [Bool.false_eq_true, if_false]
    split
    · rename_i buf bp hsome
      rw [hbuf] at hsome
      exact absurd hsome (by simp)
    · rw [if_neg hranged, if_pos hstatus]
  · rfl

theorem read_416_eof_witness :
    HttpReadResourceHandle.read ⟨5, false, none⟩ 10 ⟨416, [], none⟩ =
        .ok ([], ⟨5, true, none⟩) ∧
      HttpReadResourceHandle.tell ⟨5, true, none⟩ =
        HttpReadResourceHandle.tell ⟨5, false, none⟩ :=
  read_416_eof ⟨5, false, none⟩ 10 ⟨416, [], none⟩ rfl rfl
    (by simp) rfl

/-- C2: evaluation of `read` at a failing input.  With the handle seeked to
position 4 (no prior read, so no buffer) and `read(2)` issued, a server that
ignores the `Range` header and replies `200` with the full 8-byte body
triggers the fallback: the body is buffered, the buffer is rewound to 0 and
the read is retried against it — returning the bytes at offset 0 instead of
the requested bytes at the current position 4, while `tell()` advances to 6.
The claim requires the bytes at the handle's read position. -/
theorem read_fallback_wrong_offset :
    HttpReadResourceHandle.seek ⟨0, false, none⟩ 4 .seekSet =
        .ok (4, ⟨4, false, none⟩) ∧
      HttpReadResourceHandle.read ⟨4, false, none⟩ 2
          ⟨200, [10, 11, 12, 13, 14, 15, 16, 17], none⟩ =
        .ok ([10, 11], ⟨6, false, some ([10, 11, 12, 13, 14, 15, 16, 17], 2)⟩) ∧
      ([10, 11] : List Nat) ≠
        (([10, 11, 12, 13, 14, 15, 16, 17] : List Nat).drop 4).take 2 := by
  refine ⟨by rfl, ?_, by decide⟩
  rw [HttpReadResourceHandle.read]
  norm_num
  rw [HttpReadResourceHandle.read]
  norm_num [bytesIORead]
  exact ⟨by decide, by decide, by decide⟩

/-- A webDAV response as relevant to redirect handling: whether it is a
redirect and the `Location` header. -/
structure DavResponse where
  isRedirect : Bool
  location : List Nat
deriving DecidableEq

namespace HttpResourcePath

/-- Hard cap on the number of requests sent by `_send_webdav_request`
(`for _ in range(max_redirects := 5)`). -/
def maxRedirects : Nat := 5

/-- The request loop of `_send_webdav_request`.  The server is a function
from (method, url) to a response; the method argument never changes across
iterations, which models re-sending every hop with the original HTTP verb.
`none` models the `ValueError` raised when the loop exhausts the cap. -/
def sendLoop (server : List Nat → List Nat → DavResponse)
    (method url : List Nat) : Nat → Option DavResponse
  | 0 => none
  | n + 1 =>
    let resp := server method url
    if resp.isRedirect then sendLoop server method resp.location n
    else some resp

/-- Model of `_send_webdav_request`. -/
def sendWebdavRequest (server : List Nat → List Nat → DavResponse)
    (method url : List Nat) : Option DavResponse :=
  sendLoop server method url maxRedirects

/-- URL reached after `k` redirect hops. -/
def chainUrl (server : List Nat → List Nat → DavResponse)
    (method url : List Nat) : Nat → List Nat
  | 0 => url
  | k + 1 => (server method (chainUrl server method url k)).location

theorem chainUrl_shift (server : List Nat → List Nat → DavResponse)
    (method url : List Nat) :
    ∀ k, chainUrl server method ((server method url).location) k =
      chainUrl server method url (k + 1) := by
  intro k
  induction k with
  | zero => rfl
  | succ k ih =>
    show (server method (chainUrl server method _ k)).location = _
    rw [ih]
    rfl

theorem sendLoop_all_redirect (server : List Nat → List Nat → DavResponse)
    (method : List Nat) :
    ∀ n url,
      (∀ k < n, (server method (chainUrl server method url k)).isRedirect = true) →
      sendLoop server method url n = none := by
  intro n
  induction n with
  | zero => intro url _; rfl
  | succ n ih =>
    intro url h
    have h0 : (server method url).isRedirect = true := h 0 (by omega)
    simp only [sendLoop, h0, if_true]
    apply ih
    intro k hk
    rw [chainUrl_shift]
    exact h (k + 1) (by omega)

theorem sendLoop_first_success (server : List Nat → List Nat → DavResponse)
    (method : List Nat) :
    ∀ n k url, k < n →
      (∀ j < k, (server method (chainUrl server method url j)).isRedirect = true) →
      (server method (chainUrl server method url k)).isRedirect = false →
      sendLoop server method url n =
        some (server method (chainUrl server method url k)) := by
  intro n
  induction n with
  | zero =>
    intro k url hk
    omega
  | succ n ih =>
    intro k url hk hprev hstop
    cases k with
    | zero =>
      have hstop0 : (server method url).isRedirect = false := hstop
      simp only [sendLoop, hstop0, Bool.false_eq_true, if_false]
      rfl
    | succ k =>
      have h0 : (server method url).isRedirect = true := hprev 0 (by omega)
      simp only [sendLoop, h0, if_true]
      have := ih k ((server method url).location) (by omega)
        (fun j hj => by rw [chainUrl_shift]; exact hprev (j + 1) (by omega))
        (by rw [chainUrl_shift]; exact hstop)
      rw [this, chainUrl_shift]

end HttpResourcePath

/-- C6: `_send_webdav_request` enforces a hard cap of 5 redirect hops: if
the first 5 responses along the redirect chain are all redirects (so the
chain would require more than the cap before a non-redirect response), the
operation raises (`none`) instead of looping; if the first non-redirect
response appears within the cap, it is returned, every hop having been
re-sent with the original HTTP method (the server function is always applied
to the unchanged `method`). -/
theorem webdav_redirect_cap (server : List Nat → List Nat → DavResponse)
    (method url : List Nat) :
    ((∀ k < HttpResourcePath.maxRedirects,
        (server method (HttpResourcePath.chainUrl server method url k)).isRedirect = true) →
      HttpResourcePath.sendWebdavRequest server method url = none) ∧
      (∀ k < HttpResourcePath.maxRedirects,
        (∀ j < k,
          (server method (HttpResourcePath.chainUrl server method url j)).isRedirect = true) →
        (server method (HttpResourcePath.chainUrl server method url k)).isRedirect = false →
        HttpResourcePath.sendWebdavRequest server method url =
          some (server method (HttpResourcePath.chainUrl server method url k))) :=
  ⟨fun h => HttpResourcePath.sendLoop_all_redirect server method _ url h,
    fun k hk hprev hstop =>
      HttpResourcePath.sendLoop_first_success server method _ k url hk hprev hstop⟩

theorem webdav_redirect_cap_witness :
    HttpResourcePath.sendWebdavRequest (fun _ _ => ⟨true, []⟩) [80] [47] = none ∧
      HttpResourcePath.sendWebdavRequest (fun _ _ => ⟨false, [99]⟩) [80] [47] =
        some ⟨false, [99]⟩ :=
  ⟨(webdav_redirect_cap (fun _ _ => ⟨true, []⟩) [80] [47]).1 (fun _ _ => rfl),
    (webdav_redirect_cap (fun _ _ => ⟨false, [99]⟩) [80] [47]).2 0 (by decide)
      (fun j hj => absurd hj (by omega)) rfl⟩

/-- Transfer modes of the resource-path API. -/
inductive TransferMode where
  | copy
  | auto
  | move
  | link
  | hardlink
  | symlink
  | relsymlink
deriving DecidableEq

/-- What a transfer ends up doing, distinguishing the native webDAV verbs
from the local-staging fallback (`_copy_via_local`). -/
inductive TransferAction where
  | noop
  | webdavCopy
  | webdavMove
  | viaLocal
  | viaLocalThenRemoveSrc
deriving DecidableEq

/-- Errors raised by `transfer_from` before any bytes are transferred. -/
inductive TransferError where
  | unsupportedMode
  | alreadyExists
deriving DecidableEq

namespace HttpResourcePath

/-- Transfer modes supported by the HTTP scheme (`transferModes` of the base
URI class, not overridden by the HTTP implementation). -/
def transferModes : List TransferMode := [.copy, .auto, .move]

/-- Default mode substituted for `auto` (`transferDefault = "copy"`). -/
def transferDefault : TransferMode := .copy

/-- The hardcoded flag in `HttpResourcePath._copy`: dCache and XrootD do not
implement webDAV COPY as documented, so the copy is forced through a local
temporary file (`must_use_local = True`, with a TODO to remove it). -/
def mustUseLocal : Bool := true

/-- Model of `HttpResourcePath._copy`: the webDAV COPY verb is sent only
when `must_use_local` is false. -/
def copyAction : TransferAction :=
  if mustUseLocal then .viaLocal else .webdavCopy

/-- Model of `HttpResourcePath.transfer_from` as a decision function.  The
environment-dependent facts are inputs: `selfEqSrc` is the `self == src`
test (geturl string equality), `destExists` the value `self.exists()`
returns, and `sameClass`/`sameRoot`/`isWebdav` the three conjuncts of
`isinstance(src, type(self)) and self.root_uri() == src.root_uri() and
self.is_webdav_endpoint`.  The returned action abstracts the network side
effects; an error is raised before any transfer happens. -/
def transfer_from (selfEqSrc destExists sameClass sameRoot isWebdav : Bool)
    (transfer : TransferMode) (overwrite : Bool) :
    Except TransferError TransferAction :=
  if transfer ∉ transferModes then .error .unsupportedMode
  else if selfEqSrc then .ok .noop
  else if ¬overwrite = true ∧ destExists = true then .error .alreadyExists
  else
    let transfer := if transfer = .auto then transferDefault else transfer
    if sameClass ∧ sameRoot ∧ isWebdav then
      if transfer = .move then .ok .webdavMove else .ok copyAction
    else
      if transfer = .move then .ok .viaLocalThenRemoveSrc else .ok .viaLocal

end HttpResourcePath

/-- C4: for a supported transfer mode, (1) `self == src` returns immediately
as a no-op, even when `overwrite` is false and the destination exists;
(2) with `overwrite` false and an existing destination, the call fails with
the already-exists error before any transfer; (3) with `overwrite` true the
existence check is skipped — the result does not depend on whether the
destination exists. -/
theorem transfer_from_checks :
    (∀ destExists sameClass sameRoot isWebdav overwrite : Bool,
        ∀ transfer : TransferMode, transfer ∈ HttpResourcePath.transferModes →
        HttpResourcePath.transfer_from true destExists sameClass sameRoot
          isWebdav transfer overwrite = .ok .noop) ∧
      (∀ sameClass sameRoot isWebdav : Bool, ∀ transfer : TransferMode,
        transfer ∈ HttpResourcePath.transferModes →
        HttpResourcePath.transfer_from false true sameClass sameRoot isWebdav
          transfer false = .error .alreadyExists) ∧
      (∀ selfEqSrc e1 e2 sameClass sameRoot isWebdav : Bool,
        ∀ transfer : TransferMode,
        HttpResourcePath.transfer_from selfEqSrc e1 sameClass sameRoot
            isWebdav transfer true =
          HttpResourcePath.transfer_from selfEqSrc e2 sameClass sameRoot
            isWebdav transfer true) := by
  refine ⟨?_, ?_, ?_⟩
  · intro destExists sameClass sameRoot isWebdav overwrite transfer h
    simp [HttpResourcePath.transfer_from, h]
  · intro sameClass sameRoot isWebdav transfer h
    simp [HttpResourcePath.transfer_from, h]
  · intro selfEqSrc e1 e2 sameClass sameRoot isWebdav transfer
    simp [HttpResourcePath.transfer_from]

theorem transfer_from_checks_witness :
    HttpResourcePath.transfer_from true true false false false .copy false =
        .ok .noop ∧
      HttpResourcePath.transfer_from false true false false false .copy false =
        .error .alreadyExists ∧
      HttpResourcePath.transfer_from false true true true true .copy true =
        HttpResourcePath.transfer_from false false true true true .copy true :=
  ⟨transfer_from_checks.1 true false false false false .copy (by decide),
    transfer_from_checks.2.1 false false false .copy (by decide),
    transfer_from_checks.2.2 false true false true true true .copy⟩

/-- C3 counterexample: a copy between two `HttpResourcePath` instances of
the same class, same root URI, on a webDAV-capable endpoint is not performed
with the native COPY verb: the result is the local-staging fallback, because
`must_use_local` is the hardcoded constant `True` in `_copy` — not a
configurable policy. -/
theorem copy_policy_cex :
    HttpResourcePath.transfer_from false false true true true .copy true =
        .ok .viaLocal ∧
      TransferAction.viaLocal ≠ TransferAction.webdavCopy ∧
      HttpResourcePath.mustUseLocal = true := by
  exact ⟨by rfl, by decide, rfl⟩

/-- C3 (amended): for a copy transfer between two `HttpResourcePath`
instances with the same root authority on a webDAV-capable endpoint (and
passing the mode, no-op and overwrite checks), the implementation
unconditionally stages via a local temporary file: `must_use_local` is
hardcoded `True` in `_copy`, so the native webDAV COPY verb is never sent
(MOVE, by contrast, is still native).  The fallback is not configurable. -/
theorem copy_always_via_local (destExists overwrite : Bool)
    (transfer : TransferMode) (hmode : transfer ∈ HttpResourcePath.transferModes)
    (hnotmove : transfer ≠ .move)
    (hok : ¬(overwrite = false ∧ destExists = true)) :
    HttpResourcePath.transfer_from false destExists true true true transfer
      overwrite = .ok .viaLocal := by
  cases transfer <;>
    simp_all [HttpResourcePath.transfer_from, HttpResourcePath.transferModes,
      HttpResourcePath.copyAction, HttpResourcePath.mustUseLocal,
      HttpResourcePath.transferDefault]

theorem copy_always_via_local_witness :
    HttpResourcePath.transfer_from false false true true true .copy true =
      .ok .viaLocal :=
  copy_always_via_local false true .copy (by decide) (by decide) (by decide)
